import Mathlib

/-!
Verification of the DynaPhoPy repository (files `dynaphopy/interface/phonopy_link.py`
and `scripts/qha_extract.py`) against its natural-language specification.

The Python source is shallowly embedded in Lean: pure numerical code becomes Lean
functions over exact rationals (or a general field, standing in for the complex
floats of the source), Python object mutation becomes explicit state passing over a
store of objects, `print` becomes an accumulated list of output lines, and `exit()`
becomes a dedicated termination outcome.  External collaborators (phonopy, numpy,
scipy) are modelled from the specification at their interface boundary and are
passed in as explicit parameters wherever their values matter.
-/

namespace DynaPhoPy

/-- A supercell transformation: a 3×3 matrix, as produced by `np.identity(3)` or
read from the input parameters.  Entries are modelled as exact rationals. -/
abbrev SC : Type := Matrix (Fin 3) (Fin 3) ℚ

/-- Embedding of the Python class `ForceConstants` of `phonopy_link.py` (lines
10–22): it stores a force-constant tensor (`_force_constants`, here of an
arbitrary type `T`) and an optional supercell (`_supercell`, default `None`). -/
structure ForceConstantsObj (T : Type) where
  array : T
  supercell : Option SC
deriving DecidableEq

/-- Embedding of the Python class `ForceSets` of `phonopy_link.py` (lines 25–37):
it stores a parsed force-sets dictionary (`_forces`, of an arbitrary type `Fs`)
and an optional supercell (`_supercell`, default `None`). -/
structure ForceSetsObj (Fs : Type) where
  forces : Fs
  supercell : Option SC
deriving DecidableEq

/-- Outcome of running a piece of Python code that may print lines and may call
`exit()`: either a value is returned together with the printed lines, or the
process terminates after printing. -/
inductive PyExec (α : Type) where
  | done (printed : List String) (value : α)
  | exited (printed : List String)
deriving DecidableEq

/-- The 3×3 identity matrix `np.identity(3)`. -/
def np_identity3 : SC := 1

/-- The warning line printed by both file loaders when no supercell is given
(the source prints the same text, mentioning force sets, in both functions). -/
def noSupercellWarning : String := "No force sets supercell defined, set to identity"

/-- Embedding of `get_force_sets_from_file` (`phonopy_link.py` lines 46–56).
The external parser `parse_FORCE_SETS` is a collaborator; its output is the
input `parsed`.  Returns the constructed `ForceSets` object together with the
list of printed lines. -/
def get_force_sets_from_file {Fs : Type} (parsed : Fs) (fs_supercell : Option SC) :
    ForceSetsObj Fs × List String :=
  match fs_supercell with
  | some sc => (⟨parsed, some sc⟩, [])
  | none => (⟨parsed, some np_identity3⟩, [noSupercellWarning])

/-- Embedding of `get_force_constants_from_file` (`phonopy_link.py` lines 59–68).
The external parser `parse_FORCE_CONSTANTS` is a collaborator; its output is the
input `parsed`.  Returns the constructed `ForceConstants` object together with
the list of printed lines. -/
def get_force_constants_from_file {T : Type} (parsed : T) (fc_supercell : Option SC) :
    ForceConstantsObj T × List String :=
  match fc_supercell with
  | some sc => (⟨parsed, some sc⟩, [])
  | none => (⟨parsed, some np_identity3⟩, [noSupercellWarning])

/-- Embedding of the relevant surface of the `Structure` object consumed by
`phonopy_link.py`: the supercell-phonon transform, the primitive matrix, atomic
data, counts, and the cached force constants / force sets.  `T` is the type of
force-constant tensors, `Fs` the type of parsed force-sets dictionaries. -/
structure StructureObj (T Fs : Type) where
  supercell_phonon : SC
  primitive_matrix : Matrix (Fin 3) (Fin 3) ℚ
  atomic_elements : List String
  scaled_positions : List (Fin 3 → ℚ)
  cell : SC
  number_of_dimensions : ℕ
  number_of_primitive_atoms : ℕ
  number_of_atoms : ℕ
  force_constants : Option (ForceConstantsObj T)
  force_sets : Option (ForceSetsObj Fs)

/-- Embedding of the external phonopy `Phonopy` object at the granularity used
by `phonopy_link.py`: the data this repository hands to it (bulk structure,
supercell matrix, primitive matrix, NAC flag, force constants, displacement
dataset). -/
structure PhonopyObj (T Fs : Type) where
  bulk_symbols : List String
  bulk_scaled_positions : List (Fin 3 → ℚ)
  bulk_cell : SC
  supercell_matrix : SC
  primitive_matrix : Matrix (Fin 3) (Fin 3) ℚ
  nac : Bool
  force_constants : Option T
  displacement_dataset : Option Fs

/-- The line printed by `get_phonon` when NAC is requested. -/
def nacWarning : String := "Phonopy warning: Using Non Analytical Corrections"

/-- The line printed by `get_phonon` before terminating when a structure has
neither force constants nor force sets. -/
def noForcesMessage : String := "No force sets/constants available!"

/-- Embedding of `get_phonon` (`phonopy_link.py` lines 76–112).  The external
phonopy routine `produce_force_constants` (an SVD fit of force constants from a
displacement dataset) is a collaborator and is passed in as `produce`.  The
result carries the printed lines and, unless the process terminated, the
constructed phonopy object together with the (possibly updated) structure. -/
def get_phonon {T Fs : Type} (produce : Fs → T) (structure' : StructureObj T Fs)
    (NAC : Bool) (setup_forces : Bool) (custom_supercell : Option SC) :
    PyExec (PhonopyObj T Fs × StructureObj T Fs) :=
  let super_cell_phonon := custom_supercell.getD structure'.supercell_phonon
  let phonon : PhonopyObj T Fs :=
    { bulk_symbols := structure'.atomic_elements
      bulk_scaled_positions := structure'.scaled_positions
      bulk_cell := structure'.cell
      supercell_matrix := super_cell_phonon
      primitive_matrix := structure'.primitive_matrix
      nac := NAC
      force_constants := none
      displacement_dataset := none }
  let printed0 : List String := if NAC then [nacWarning] else []
  if setup_forces then
    match structure'.force_constants with
    | some fc => .done printed0 ({ phonon with force_constants := some fc.array }, structure')
    | none =>
      match structure'.force_sets with
      | some fs =>
        let produced := produce fs.forces
        .done printed0
          ({ phonon with displacement_dataset := some fs.forces,
                         force_constants := some produced },
           { structure' with force_constants := some ⟨produced, fs.supercell⟩ })
      | none => .exited (printed0 ++ [noForcesMessage])
  else .done printed0 (phonon, structure')

/-- A density-of-states curve: the frequency axis paired with the DOS values,
as in the 2-row arrays returned by phonopy. -/
abbrev DosData : Type := List ℚ × List ℚ

/-- Embedding of `obtain_phonopy_dos` (`phonopy_link.py` lines 148–178).  The
external phonopy DOS machinery is a collaborator: `totalDos` models the result
of `phonon.get_total_DOS()` and `pdos` the pair returned by
`phonon.get_partial_DOS()` (frequency axis, list of per-atom partial DOS
curves).  `projected_on_atom` is a Python integer (default `-1`).  The `mesh`,
`freq_min` and `freq_max` arguments are forwarded verbatim to the external
library and are omitted here.  The final normalization multiplies the DOS
values by `number_of_atoms / number_of_primitive_atoms`. -/
def obtain_phonopy_dos {T Fs : Type} (produce : Fs → T)
    (totalDos : DosData) (pdos : List ℚ × List (List ℚ))
    (structure' : StructureObj T Fs) (force_constants : Option (ForceConstantsObj T))
    (projected_on_atom : ℤ) : PyExec DosData :=
  let phononExec :=
    match force_constants with
    | none => get_phonon produce structure' false true none
    | some fc => get_phonon produce structure' false false fc.supercell
  match phononExec with
  | .exited printed => .exited printed
  | .done printed _ =>
    let normalize : DosData → DosData := fun d =>
      (d.1, d.2.map (fun x =>
        x * ((structure'.number_of_atoms : ℚ) / structure'.number_of_primitive_atoms)))
    if projected_on_atom < 0 then
      .done printed (normalize totalDos)
    else
      if (pdos.2.length : ℤ) ≤ projected_on_atom then
        .exited (printed ++ ["No atom type " ++ toString projected_on_atom])
      else
        .done printed (normalize (pdos.1, pdos.2.getD projected_on_atom.toNat []))

/-- Embedding of `get_equivalent_q_points_by_symmetry` (`phonopy_link.py` lines
242–262).  The external phonopy `Symmetry(bulk).get_reciprocal_operations()` is
a collaborator whose output is the input list `operations`; `primitive_inv`
models the numpy matrix inverse `np.linalg.inv(structure.get_primitive_matrix())`.
Each symmetry image `q_point · (primitive_inv · opᵀ · primitive)` is kept when
all of its components are non-negative; the Python set comprehension over row
tuples that the source builds `np.vstack` from deduplicates the kept rows. -/
def get_equivalent_q_points_by_symmetry (q_point : Fin 3 → ℚ)
    (operations : List (Matrix (Fin 3) (Fin 3) ℚ))
    (primitive : Matrix (Fin 3) (Fin 3) ℚ) (primitive_inv : Matrix (Fin 3) (Fin 3) ℚ) :
    List (Fin 3 → ℚ) :=
  let tot_points := operations.filterMap (fun op =>
    let operation_matrix_q := primitive_inv * op.transpose * primitive
    let q_point_test := Matrix.vecMul q_point operation_matrix_q
    if ∀ i, 0 ≤ q_point_test i then some q_point_test else none)
  tot_points.dedup

/-! ### The QHA extraction script (`scripts/qha_extract.py`) -/

/-- The comparison key used to model `np.argsort(volumes)` (`qha_extract.py`
line 72): index `i` precedes index `j` when its volume is smaller, with ties
broken by original position (a stable argsort; numpy's default quicksort
agrees with it on distinct values, which is the intended regime of the
script). -/
def argsortKey (v : List ℚ) (i j : ℕ) : Prop :=
  v.getD i 0 < v.getD j 0 ∨ (v.getD i 0 = v.getD j 0 ∧ i ≤ j)

instance argsortKey.decidableRel (v : List ℚ) : DecidableRel (argsortKey v) := fun _ _ =>
  inferInstanceAs (Decidable (_ ∨ _))

instance argsortKey.isTotal (v : List ℚ) : IsTotal ℕ (argsortKey v) where
  total i j := by
    rcases lt_trichotomy (v.getD i 0) (v.getD j 0) with h | h | h
    · exact Or.inl (Or.inl h)
    · rcases Nat.le_total i j with hij | hij
      · exact Or.inl (Or.inr ⟨h, hij⟩)
      · exact Or.inr (Or.inr ⟨h.symm, hij⟩)
    · exact Or.inr (Or.inl h)

instance argsortKey.isTrans (v : List ℚ) : IsTrans ℕ (argsortKey v) where
  trans a b c hab hbc := by
    rcases hab with hab | ⟨hab, hab'⟩
    · rcases hbc with hbc | ⟨hbc, _⟩
      · exact Or.inl (hab.trans hbc)
      · exact Or.inl (hbc ▸ hab)
    · rcases hbc with hbc | ⟨hbc, hbc'⟩
      · exact Or.inl (hab ▸ hbc)
      · exact Or.inr ⟨hab.trans hbc, hab'.trans hbc'⟩

/-- Model of `np.argsort(volumes)`: the indices `0, …, len(volumes)-1` sorted
by volume value. -/
def argsortQ (v : List ℚ) : List ℕ :=
  List.insertionSort (argsortKey v) (List.range v.length)

/-- Numpy fancy indexing `data[idx]`: pick out the entries of `l` at positions
`idx` (with a default for out-of-range positions, which do not occur here since
the argsort indices are a permutation of the valid range). -/
def reorderBy (idx : List ℕ) (l : List α) (d : α) : List α :=
  idx.map (fun i => l.getD i d)

/-- Model of `np.array(rows).T[:, idx]` (`qha_extract.py` lines 77–79): the
per-volume rows are transposed to a (temperature × volume) matrix whose column
`i` is the data series of volume `idx[i]`.  `nt` is the number of temperature
samples. -/
def transposeSelect (nt : ℕ) (idx : List ℕ) (rows : List (List ℚ)) : List (List ℚ) :=
  (List.range nt).map (fun t => idx.map (fun i => (rows.getD i []).getD t 0))

/-- The inputs of the QHA extraction script, after file reading: the
energy-volume table (`volumes`, `electronic_energies`), the temperature axis,
the per-volume thermal-property series, and the force-constant tensors read
from the (name-sorted) force-constant files, in file order.  `T` is the type
of one force-constant tensor. -/
structure QhaInputs (T : Type) where
  volumes : List ℚ
  electronic_energies : List ℚ
  temperatures : List ℚ
  fe_phonon : List (List ℚ)
  entropy : List (List ℚ)
  cv : List (List ℚ)
  fc_arrays : List T
deriving DecidableEq

/-- `sort_index = np.argsort(volumes)` (`qha_extract.py` line 72). -/
def qha_sort_index {T : Type} (inp : QhaInputs T) : List ℕ :=
  argsortQ inp.volumes

/-- `volumes = np.array(volumes)[sort_index]` (line 74). -/
def qha_volumes_sorted {T : Type} (inp : QhaInputs T) : List ℚ :=
  reorderBy (qha_sort_index inp) inp.volumes 0

/-- `electronic_energies = np.array(electronic_energies)[sort_index]` (line 75). -/
def qha_ee_sorted {T : Type} (inp : QhaInputs T) : List ℚ :=
  reorderBy (qha_sort_index inp) inp.electronic_energies 0

/-- `fe_phonon = np.array(fe_phonon).T[:, sort_index]` (line 77). -/
def qha_fe_passed {T : Type} (inp : QhaInputs T) : List (List ℚ) :=
  transposeSelect inp.temperatures.length (qha_sort_index inp) inp.fe_phonon

/-- `entropy = np.array(entropy).T[:, sort_index]` (line 78). -/
def qha_entropy_passed {T : Type} (inp : QhaInputs T) : List (List ℚ) :=
  transposeSelect inp.temperatures.length (qha_sort_index inp) inp.entropy

/-- `cv = np.array(cv).T[:, sort_index]` (line 79). -/
def qha_cv_passed {T : Type} (inp : QhaInputs T) : List (List ℚ) :=
  transposeSelect inp.temperatures.length (qha_sort_index inp) inp.cv

/-- The sequence of per-volume force-constant tensors handed to the quadratic
volume interpolator `f_temperature = interp1d(volumes, force_constants_mat,
kind='quadratic')` (`qha_extract.py` lines 120–126).  The tensors are read in
sorted-filename order and stacked; the transpose `.T` only moves the volume
axis to the last position, so the order along the interpolation axis is the
file order — the script applies no `sort_index` reordering to them. -/
def qha_fc_passed {T : Type} (inp : QhaInputs T) : List T :=
  inp.fc_arrays

/-- A concrete script input on which the sorted-volume alignment of the
force-constant series fails: the energy-volume file lists volumes in
decreasing order while the force-constant files are read in file order. -/
def qhaCounterexampleInput : QhaInputs ℚ :=
  { volumes := [2, 1]
    electronic_energies := [0, 0]
    temperatures := [0]
    fe_phonon := [[0], [0]]
    entropy := [[0], [0]]
    cv := [[0], [0]]
    fc_arrays := [0, 1] }

/-- A concrete script input with the volumes already in increasing order. -/
def qhaSortedInput : QhaInputs ℚ :=
  { volumes := [1, 2]
    electronic_energies := [0, 0]
    temperatures := [0]
    fe_phonon := [[0], [0]]
    entropy := [[0], [0]]
    cv := [[0], [0]]
    fc_arrays := [5, 7] }

/-! ### The renormalized force-constant reconstruction core
(`get_renormalized_force_constants`, `phonopy_link.py` lines 265–290)

The external phonopy context `DynmatToForceConstants` is modelled from the
spec (§4.1): the commensurate q-points of a supercell containing `N`
primitive-cell images are indexed by `ZMod N` (a one-dimensional supercell
stack; the multi-dimensional case factors into such stacks), the Fourier
kernel is given by a primitive `N`-th root of unity `ζ`, and the per-band mass
normalization by a vector `w` of non-zero weights (square roots of atomic
masses).  `m = D·P` combined (atom, dimension) band indices label the rows and
columns of each `m × m` (dynamical-matrix) block. -/

/-- A real-space force-constant tensor over the supercell, stored as its
`m × m` blocks between primitive-cell images `l` and `l'`. -/
abbrev FCTensor (F : Type) (N m : ℕ) : Type :=
  ZMod N → ZMod N → Matrix (Fin m) (Fin m) F

/-- A supercell force-constant tensor is translation invariant when its blocks
depend only on the relative cell offset — the physical invariance every tensor
assembled from commensurate dynamical matrices satisfies. -/
def TranslationInvariant {F : Type} {N m : ℕ} (Φ : FCTensor F N m) : Prop :=
  ∀ t l l', Φ (l + t) (l' + t) = Φ l l'

/-- Modelled from the spec: phonopy's fixed unit-conversion constant
`VaspToTHz` (≈ 15.633302), by which `get_renormalized_force_constants` divides
the input frequencies (line 277).  Only its being one fixed non-zero constant
matters to the claims; it is represented by an exact rational stand-in for the
double-precision value. -/
def vaspToTHz (F : Type) [DivisionRing F] : F := 15633302 / 1000000

/-- `x` equals `y` up to the relative numerical tolerance `tol`. -/
def relClose (tol x y : ℚ) : Prop := |x - y| ≤ tol * |y|

instance relClose.decidable (tol x y : ℚ) : Decidable (relClose tol x y) :=
  inferInstanceAs (Decidable (_ ≤ _))

/-- Element `t` of the row-major (C-order) flattening of an eigenvector bundle
of numpy shape `(D·P, P, D)` — the layout `obtain_eigenvectors_and_frequencies`
produces: mode-major, then atom, then dimension. -/
def natIdx3 {F : Type} (D P : ℕ) (ev : Fin (D * P) → Fin P → Fin D → F)
    (t : ℕ) (ht : t < D * P * (D * P)) : F :=
  ev ⟨t / (P * D), by
        have hPD : 0 < P * D := by
          rcases Nat.eq_zero_or_pos (P * D) with h | h
          · rw [Nat.mul_comm P D] at h; rw [h] at ht; simp at ht
          · exact h
        rw [Nat.div_lt_iff_lt_mul hPD]
        calc t < D * P * (D * P) := ht
          _ = D * P * (P * D) := by ring⟩
     ⟨t % (P * D) / D, by
        have hD : 0 < D := by
          rcases Nat.eq_zero_or_pos D with h | h
          · rw [h] at ht; simp at ht
          · exact h
        have hPD : 0 < P * D := by
          rcases Nat.eq_zero_or_pos (P * D) with h | h
          · rw [Nat.mul_comm P D] at h; rw [h] at ht; simp at ht
          · exact h
        rw [Nat.div_lt_iff_lt_mul hD]
        exact Nat.mod_lt _ hPD⟩
     ⟨t % (P * D) % D, by
        have hD : 0 < D := by
          rcases Nat.eq_zero_or_pos D with h | h
          · rw [h] at ht; simp at ht
          · exact h
        exact Nat.mod_lt _ hD⟩

/-- Numpy `eigenvector.reshape(size, size, order='C')` with `size = D·P`
(`phonopy_link.py` line 275): entry `(r, c)` of the reshaped square matrix is
element `r·size + c` of the row-major flattening of the bundle. -/
def reshapeC {F : Type} (D P : ℕ) (ev : Fin (D * P) → Fin P → Fin D → F) :
    Matrix (Fin (D * P)) (Fin (D * P)) F :=
  Matrix.of fun r c => natIdx3 D P ev (r.val * (D * P) + c.val) (by
    have hc := c.isLt
    calc r.val * (D * P) + c.val < r.val * (D * P) + (D * P) := by omega
      _ = (r.val + 1) * (D * P) := by ring
      _ ≤ (D * P) * (D * P) := Nat.mul_le_mul_right (D * P) r.isLt
      _ = D * P * (D * P) := rfl)

/-- The per-q-point eigenvector matrix handed to the reconstruction context:
the bundle reshaped to `(D·P, D·P)` in row-major order and then transposed
(`phonopy_link.py` line 275). -/
def reshapeTranspose {F : Type} (D P : ℕ) (ev : Fin (D * P) → Fin P → Fin D → F) :
    Matrix (Fin (D * P)) (Fin (D * P)) F :=
  (reshapeC D P ev).transpose

/-- The combined band index of atom `j`, dimension `k` in the row-major
`(atom, dimension)` flattening of length `D·P`. -/
def pdIdx {D P : ℕ} (j : Fin P) (k : Fin D) : Fin (D * P) :=
  ⟨j.val * D + k.val, by
    have hk := k.isLt
    calc j.val * D + k.val < j.val * D + D := by omega
      _ = (j.val + 1) * D := by ring
      _ ≤ P * D := Nat.mul_le_mul_right D j.isLt
      _ = D * P := Nat.mul_comm P D⟩

/-- Modelled from the spec: `DynmatToForceConstants.set_dynamical_matrices`
assembles, for one q-point, the dynamical matrix from its exact
eigendecomposition — the column-eigenvector matrix `E`, the squared
internal-unit frequencies on the diagonal, and the conjugate transpose of `E`
(conjugation is the ring morphism `conj`; the identity on a real scalar
field). -/
def dynmatFromModes {F : Type} [Field F] {m : ℕ} (conj : F →+* F)
    (f : Fin m → F) (E : Matrix (Fin m) (Fin m) F) : Matrix (Fin m) (Fin m) F :=
  E * Matrix.diagonal (fun i => f i ^ 2) * (E.map conj).transpose

/-- Modelled from the spec: the commensurate dynamical matrices of a supercell
force-constant tensor — the mass-normalized Fourier transform of the reference
row of blocks, evaluated at the `N` commensurate q-points (the harmonic data
from which exact frequencies and eigenvectors are derived). -/
def dynmat {F : Type} [Field F] (N : ℕ) [NeZero N] {m : ℕ} (ζ : F) (w : Fin m → F)
    (Φ : FCTensor F N m) : ZMod N → Matrix (Fin m) (Fin m) F :=
  fun j => Matrix.of fun a b =>
    (∑ t : ZMod N, Φ 0 t a b * ζ ^ (j.val * t.val)) / (w a * w b)

/-- Modelled from the spec: `DynmatToForceConstants.run`, the inverse
transform — each real-space block is the mass-weighted average of the
dynamical matrices over the commensurate q-points against the inverse Fourier
kernel. -/
def reconstruct {F : Type} [Field F] (N : ℕ) [NeZero N] {m : ℕ} (ζ : F) (w : Fin m → F)
    (Dm : ZMod N → Matrix (Fin m) (Fin m) F) : FCTensor F N m :=
  fun l l' => Matrix.of fun a b =>
    w a * w b * (∑ j : ZMod N, Dm j a b * ζ⁻¹ ^ ((l' - l).val * j.val)) / N

/-- The frequencies handed to `set_dynamical_matrices`: the input frequencies
divided by `VaspToTHz` (`phonopy_link.py` line 277). -/
def grfcFreqsHanded {F : Type} [Field F] {N m : ℕ}
    (renormalized_frequencies : ZMod N → Fin m → F) : ZMod N → Fin m → F :=
  fun q i => renormalized_frequencies q i / vaspToTHz F

/-- The tensor produced by the reconstruction inside
`get_renormalized_force_constants` (lines 274–279): the context is fed, per
commensurate q-point, the unit-converted frequencies and the
reshaped-and-transposed eigenvector matrix, and its inverse transform is
run. -/
def grfcTensor {F : Type} [Field F] (N : ℕ) [NeZero N] (D P : ℕ)
    (conj : F →+* F) (ζ : F) (w : Fin (D * P) → F)
    (renormalized_frequencies : ZMod N → Fin (D * P) → F)
    (eigenvectors : ZMod N → Fin (D * P) → Fin P → Fin D → F) :
    FCTensor F N (D * P) :=
  reconstruct N ζ w (fun q =>
    dynmatFromModes conj (grfcFreqsHanded renormalized_frequencies q)
      (reshapeTranspose D P (eigenvectors q)))

/-- Embedding of `get_renormalized_force_constants` (`phonopy_link.py` lines
265–290), with Python object identity made explicit: `σ0` is the store of
`ForceConstants` objects alive before the call.  A `ForceConstants` instance
holding the reconstructed tensor and `fc_supercell` is allocated (line 280);
when `symmetrize` is set, the external phonopy symmetrizer
`set_tensor_symmetry_PJ` — modelled by the arbitrary tensor transformation
`symPJ`, its return value discarded by the source — overwrites the stored
array of that same instance in place (lines 283–288).  The result is the final
store together with the index of the returned instance. -/
def get_renormalized_force_constants {F : Type} [Field F] (N : ℕ) [NeZero N] (D P : ℕ)
    (conj : F →+* F) (ζ : F) (w : Fin (D * P) → F)
    (symPJ : FCTensor F N (D * P) → FCTensor F N (D * P))
    (renormalized_frequencies : ZMod N → Fin (D * P) → F)
    (eigenvectors : ZMod N → Fin (D * P) → Fin P → Fin D → F)
    (fc_supercell : SC) (symmetrize : Bool)
    (σ0 : List (ForceConstantsObj (FCTensor F N (D * P)))) :
    List (ForceConstantsObj (FCTensor F N (D * P))) × ℕ :=
  let t := grfcTensor N D P conj ζ w renormalized_frequencies eigenvectors
  let σ1 := σ0 ++ [⟨t, some fc_supercell⟩]
  let r := σ0.length
  let σ2 := if symmetrize then σ1.set r ⟨symPJ t, some fc_supercell⟩ else σ1
  (σ2, r)

/-- The `ForceConstants` instance returned by
`get_renormalized_force_constants`, looked up in the final store. -/
def grfcResultObj {F : Type} [Field F] (N : ℕ) [NeZero N] (D P : ℕ)
    (conj : F →+* F) (ζ : F) (w : Fin (D * P) → F)
    (symPJ : FCTensor F N (D * P) → FCTensor F N (D * P))
    (renormalized_frequencies : ZMod N → Fin (D * P) → F)
    (eigenvectors : ZMod N → Fin (D * P) → Fin P → Fin D → F)
    (fc_supercell : SC) (symmetrize : Bool)
    (σ0 : List (ForceConstantsObj (FCTensor F N (D * P)))) :
    Option (ForceConstantsObj (FCTensor F N (D * P))) :=
  let res := get_renormalized_force_constants N D P conj ζ w symPJ
    renormalized_frequencies eigenvectors fc_supercell symmetrize σ0
  res.1[res.2]?

/-- A concrete supercell force-constant tensor over two cells that is NOT
translation invariant: the on-site block of cell 0 is 4 while the on-site
block of cell 1 is 5.  Its commensurate dynamical matrices (which only see the
reference row of blocks) are both `[[4]]`. -/
def c1Phi : FCTensor ℚ 2 (1 * 1) := fun l l' =>
  Matrix.of fun _ _ => if l = l' then (if l = 0 then 4 else 5) else 0

/-- The exact harmonic frequencies (in THz-equivalent units) of `c1Phi`: both
dynamical matrices are `[[4]]`, so the internal frequency is 2 and the
physical one `2·VaspToTHz`. -/
def c1Freqs : ZMod 2 → Fin (1 * 1) → ℚ := fun _ _ => 2 * vaspToTHz ℚ

/-- The exact eigenvector bundles of `c1Phi`: the one-band eigenvector is 1 at
every q-point. -/
def c1Ev : ZMod 2 → Fin (1 * 1) → Fin 1 → Fin 1 → ℚ := fun _ _ _ _ => 1

/-- A concrete translation-invariant one-cell, one-band tensor with on-site
block 4, together with its exact eigendata, used to evaluate the round-trip on
an explicit input. -/
def w1Phi : FCTensor ℚ 1 (1 * 1) := fun _ _ => Matrix.of fun _ _ => 4

/-- Frequencies of `w1Phi` in THz-equivalent units. -/
def w1Freqs : ZMod 1 → Fin (1 * 1) → ℚ := fun _ _ => 2 * vaspToTHz ℚ

/-- Eigenvector bundle of `w1Phi`. -/
def w1Ev : ZMod 1 → Fin (1 * 1) → Fin 1 → Fin 1 → ℚ := fun _ _ _ _ => 1

/-- A concrete structure with neither force constants nor force sets, used to
evaluate the embedding on explicit inputs. -/
def emptyStructure : StructureObj Unit Unit :=
  { supercell_phonon := 1
    primitive_matrix := 1
    atomic_elements := []
    scaled_positions := []
    cell := 1
    number_of_dimensions := 3
    number_of_primitive_atoms := 1
    number_of_atoms := 1
    force_constants := none
    force_sets := none }

end DynaPhoPy

namespace DynaPhoPy

/-! ### Helper lemmas -/

/-- Overwriting the object at the index just past a store prefix replaces the
freshly appended object. -/
theorem set_append_singleton {α : Type} (l : List α) (a b : α) :
    (l ++ [a]).set l.length b = l ++ [b] := by
  induction l with
  | nil => rfl
  | cons x xs ih => simp [List.set, ih]

/-- Looking up the index just past a store prefix finds the appended object. -/
theorem getElem?_append_singleton {α : Type} (l : List α) (a : α) :
    (l ++ [a])[l.length]? = some a :=
  List.getElem?_concat_length l a

/-- A sum over `ZMod N` of powers indexed by `val` is the corresponding range
sum. -/
theorem sum_zmod_val_pow {F : Type} [Field F] (N : ℕ) [NeZero N] (x : F) :
    (∑ j : ZMod N, x ^ j.val) = ∑ i ∈ Finset.range N, x ^ i := by
  refine Finset.sum_nbij' (fun j : ZMod N => j.val) (fun i : ℕ => (i : ZMod N))
    ?_ ?_ ?_ ?_ ?_
  · intro a _
    exact Finset.mem_range.mpr (ZMod.val_lt a)
  · intro a _
    exact Finset.mem_univ _
  · intro a _
    exact ZMod.natCast_rightInverse a
  · intro i hi
    exact ZMod.val_cast_of_lt (Finset.mem_range.mp hi)
  · intro a _
    rfl

/-- Orthogonality of the discrete Fourier characters built from a primitive
`N`-th root of unity: summed over the commensurate points, the product of the
forward kernel at `t` and the inverse kernel at `d` is `N` when `t = d` and
`0` otherwise. -/
theorem zmod_char_sum {F : Type} [Field F] (N : ℕ) [NeZero N] (ζ : F)
    (hζ : IsPrimitiveRoot ζ N) (t d : ZMod N) :
    (∑ j : ZMod N, ζ ^ (j.val * t.val) * ζ⁻¹ ^ (d.val * j.val)) =
      if t = d then (N : F) else 0 := by
  have hζ0 : ζ ≠ 0 := by
    intro h
    have h1 := hζ.pow_eq_one
    rw [h, zero_pow (NeZero.ne N)] at h1
    exact zero_ne_one h1
  have hsummand : ∀ j : ZMod N,
      ζ ^ (j.val * t.val) * ζ⁻¹ ^ (d.val * j.val) =
        (ζ ^ t.val * ζ⁻¹ ^ d.val) ^ j.val := by
    intro j
    rw [mul_pow, ← pow_mul, ← pow_mul, Nat.mul_comm t.val j.val]
  rw [Finset.sum_congr rfl (fun j _ => hsummand j), sum_zmod_val_pow]
  by_cases h : t = d
  · subst h
    have hx : ζ ^ t.val * ζ⁻¹ ^ t.val = 1 := by
      rw [inv_pow, mul_inv_cancel₀ (pow_ne_zero _ hζ0)]
    rw [if_pos rfl, hx]
    simp
  · have hx1 : ζ ^ t.val * ζ⁻¹ ^ d.val ≠ 1 := by
      intro hx
      rw [inv_pow, ← div_eq_mul_inv, div_eq_one_iff_eq (pow_ne_zero _ hζ0)] at hx
      exact h (ZMod.val_injective N (hζ.pow_inj (ZMod.val_lt t) (ZMod.val_lt d) hx))
    have hinv : ζ⁻¹ ^ N = 1 := by
      rw [inv_pow, hζ.pow_eq_one, inv_one]
    have hxN : (ζ ^ t.val * ζ⁻¹ ^ d.val) ^ N = 1 := by
      rw [mul_pow, ← pow_mul, ← pow_mul, Nat.mul_comm t.val N, Nat.mul_comm d.val N,
        pow_mul, pow_mul, hζ.pow_eq_one, hinv, one_pow, one_pow, one_mul]
    rw [if_neg h, geom_sum_eq hx1, hxN, sub_self, zero_div]

/-- Round trip of the modelled reconstruction context: running the inverse
transform on the commensurate dynamical matrices of a translation-invariant
supercell tensor recovers the tensor exactly. -/
theorem reconstruct_dynmat {F : Type} [Field F] (N : ℕ) [NeZero N] {m : ℕ}
    (ζ : F) (w : Fin m → F) (Φ : FCTensor F N m)
    (hΦ : TranslationInvariant Φ) (hζ : IsPrimitiveRoot ζ N)
    (hw : ∀ a, w a ≠ 0) (hN : (N : F) ≠ 0) :
    reconstruct N ζ w (dynmat N ζ w Φ) = Φ := by
  funext l l'
  ext a b
  simp only [reconstruct, dynmat, Matrix.of_apply]
  have hstep : ∀ j : ZMod N,
      (∑ t : ZMod N, Φ 0 t a b * ζ ^ (j.val * t.val)) / (w a * w b) *
          ζ⁻¹ ^ ((l' - l).val * j.val) =
        (∑ t : ZMod N, Φ 0 t a b *
          (ζ ^ (j.val * t.val) * ζ⁻¹ ^ ((l' - l).val * j.val))) / (w a * w b) := by
    intro j
    rw [div_mul_eq_mul_div, Finset.sum_mul]
    congr 1
    refine Finset.sum_congr rfl fun t _ => ?_
    ring
  rw [Finset.sum_congr rfl fun j _ => hstep j, ← Finset.sum_div, Finset.sum_comm]
  have hinner : ∀ t : ZMod N,
      (∑ j : ZMod N, Φ 0 t a b *
        (ζ ^ (j.val * t.val) * ζ⁻¹ ^ ((l' - l).val * j.val))) =
        Φ 0 t a b * (if t = l' - l then (N : F) else 0) := by
    intro t
    rw [← Finset.mul_sum, zmod_char_sum N ζ hζ t (l' - l)]
  rw [Finset.sum_congr rfl fun t _ => hinner t]
  simp only [mul_ite, mul_zero]
  rw [Finset.sum_ite_eq' Finset.univ (l' - l) (fun t => Φ 0 t a b * (N : F))]
  simp only [Finset.mem_univ, if_true]
  have hTI : Φ 0 (l' - l) = Φ l l' := by
    have h := hΦ l 0 (l' - l)
    rw [zero_add, sub_add_cancel] at h
    exact h.symm
  rw [← hTI, div_eq_iff hN,
    mul_comm (w a * w b) (Φ 0 (l' - l) a b * (N : F) / (w a * w b)),
    div_mul_cancel₀ _ (mul_ne_zero (hw a) (hw b))]

/-- The argsort indices are a permutation of the position range. -/
theorem argsortQ_perm (v : List ℚ) : List.Perm (argsortQ v) (List.range v.length) :=
  List.perm_insertionSort _ _

/-- The argsort indices are sorted for the argsort key. -/
theorem argsortQ_sorted (v : List ℚ) : List.Sorted (argsortKey v) (argsortQ v) :=
  List.sorted_insertionSort _ _

/-- Reading a whole list back off the range of its positions. -/
theorem map_getD_range {α : Type} (l : List α) (d : α) :
    (List.range l.length).map (fun i => l.getD i d) = l := by
  apply List.ext_getElem
  · simp
  · intro i h1 h2
    simp only [List.getElem_map, List.getElem_range]
    rw [List.getD_eq_getElem l d h2]

/-- Volumes listed in non-decreasing order are already argsort-sorted, so the
argsort is the identity permutation. -/
theorem argsortQ_of_sorted {v : List ℚ} (hv : List.Sorted (· ≤ ·) v) :
    argsortQ v = List.range v.length := by
  apply List.Sorted.insertionSort_eq
  rw [List.Sorted, List.pairwise_iff_getElem]
  intro i j hi hj hij
  rw [List.length_range] at hi hj
  simp only [List.getElem_range]
  have hvij : v.getD i 0 ≤ v.getD j 0 := by
    rw [List.getD_eq_getElem v 0 hi, List.getD_eq_getElem v 0 hj]
    rw [List.Sorted, List.pairwise_iff_getElem] at hv
    exact hv i j hi hj hij
  rcases lt_or_eq_of_le hvij with h | h
  · exact Or.inl h
  · exact Or.inr ⟨h, le_of_lt hij⟩

/-- Entry `(t, i)` of the transposed, column-selected matrix is entry `t` of
the row picked out by index `i`. -/
theorem transposeSelect_getD (nt : ℕ) (idx : List ℕ) (rows : List (List ℚ))
    (t i : ℕ) (ht : t < nt) (hi : i < idx.length) :
    ((transposeSelect nt idx rows).getD t []).getD i 0 =
      (rows.getD (idx.getD i 0) []).getD t 0 := by
  unfold transposeSelect
  have h1 : (List.map (fun t => idx.map (fun i => (rows.getD i []).getD t 0))
        (List.range nt)).getD t [] = idx.map (fun i => (rows.getD i []).getD t 0) := by
    rw [List.getD_eq_getElem _ _ (by simpa using ht), List.getElem_map, List.getElem_range]
  rw [h1]
  have h2 : (idx.map (fun i => (rows.getD i []).getD t 0)).getD i 0 =
      (rows.getD (idx.getD i 0) []).getD t 0 := by
    rw [List.getD_eq_getElem _ _ (by simpa using hi), List.getElem_map,
      List.getD_eq_getElem idx 0 hi]
  rw [h2]

/-- Full characterization of one run of `get_renormalized_force_constants`:
the final store is the initial store with exactly one appended instance —
holding the (possibly in-place symmetrized) reconstructed tensor and the given
supercell — and the returned index is that of the appended instance. -/
theorem grfc_run_eq {F : Type} [Field F] (N : ℕ) [NeZero N] (D P : ℕ)
    (conj : F →+* F) (ζ : F) (w : Fin (D * P) → F)
    (symPJ : FCTensor F N (D * P) → FCTensor F N (D * P))
    (freqs : ZMod N → Fin (D * P) → F)
    (ev : ZMod N → Fin (D * P) → Fin P → Fin D → F)
    (fc_supercell : SC) (symmetrize : Bool)
    (σ0 : List (ForceConstantsObj (FCTensor F N (D * P)))) :
    get_renormalized_force_constants N D P conj ζ w symPJ freqs ev
        fc_supercell symmetrize σ0 =
      (σ0 ++ [⟨(if symmetrize then symPJ (grfcTensor N D P conj ζ w freqs ev)
                else grfcTensor N D P conj ζ w freqs ev), some fc_supercell⟩],
       σ0.length) := by
  cases symmetrize with
  | false => simp [get_renormalized_force_constants]
  | true => simp [get_renormalized_force_constants, set_append_singleton]

/-- Singleton sum over the one-element band index type of a 1×1 block. -/
theorem sum_fin_one {M : Type} [AddCommMonoid M] (f : Fin (1 * 1) → M) :
    (∑ i, f i) = f ⟨0, Nat.one_pos⟩ :=
  Fin.sum_univ_one f

/-- Singleton sum over the single commensurate point of a one-cell stack. -/
theorem sum_zmod_one {M : Type} [AddCommMonoid M] (f : ZMod 1 → M) :
    (∑ j : ZMod 1, f j) = f 0 :=
  Fin.sum_univ_one f

/-- Two-term sum over the commensurate points of a two-cell stack. -/
theorem sum_zmod_two {M : Type} [AddCommMonoid M] (f : ZMod 2 → M) :
    (∑ j : ZMod 2, f j) = f 0 + f 1 :=
  Fin.sum_univ_two f

/-- Every element of `ZMod 2` is 0 or 1. -/
theorem zmod_two_cases : ∀ x : ZMod 2, x = 0 ∨ x = 1 := by
  decide

/-- Decoding the block row of a row-major flat index. -/
theorem idx_div (D P a bc : ℕ) (hPD : 0 < P * D) (hbc : bc < P * D) :
    (a * (D * P) + bc) / (P * D) = a := by
  rw [Nat.mul_comm D P, Nat.mul_comm a (P * D), Nat.mul_add_div hPD,
    Nat.div_eq_of_lt hbc, Nat.add_zero]

/-- The within-row remainder of a row-major flat index. -/
theorem idx_mod (D P a bc : ℕ) (hbc : bc < P * D) :
    (a * (D * P) + bc) % (P * D) = bc := by
  rw [Nat.mul_comm D P, Nat.mul_comm a (P * D), Nat.add_comm,
    Nat.add_mul_mod_self_left, Nat.mod_eq_of_lt hbc]

/-- Decoding the atom index of a combined (atom, dimension) index. -/
theorem idx_div2 (D b c : ℕ) (hD : 0 < D) (hc : c < D) : (b * D + c) / D = b := by
  rw [Nat.mul_comm b D, Nat.mul_add_div hD, Nat.div_eq_of_lt hc, Nat.add_zero]

/-- Decoding the dimension index of a combined (atom, dimension) index. -/
theorem idx_mod2 (D b c : ℕ) (hc : c < D) : (b * D + c) % D = c := by
  rw [Nat.mul_comm b D, Nat.add_comm, Nat.add_mul_mod_self_left, Nat.mod_eq_of_lt hc]

/-- Evaluation of the modelled `set_dynamical_matrices` input on the concrete
one-band eigendata with frequency `2·VaspToTHz` and unit eigenvectors: every
assembled dynamical matrix is `[[4]]`. -/
theorem modes_family_eval (N : ℕ) [NeZero N] (freqs : ZMod N → Fin (1 * 1) → ℚ)
    (ev : ZMod N → Fin (1 * 1) → Fin 1 → Fin 1 → ℚ)
    (hf : ∀ q i, freqs q i = 2 * vaspToTHz ℚ) (hev : ∀ q i j k, ev q i j k = 1) :
    (fun q => dynmatFromModes (RingHom.id ℚ) (grfcFreqsHanded freqs q)
      (reshapeTranspose 1 1 (ev q))) = fun _ => Matrix.of fun _ _ => (4 : ℚ) := by
  funext q
  ext a b
  have ha : a = ⟨0, Nat.one_pos⟩ := Fin.ext (by omega)
  have hb : b = ⟨0, Nat.one_pos⟩ := Fin.ext (by omega)
  subst ha hb
  simp only [dynmatFromModes, Matrix.mul_apply, sum_fin_one, Matrix.of_apply,
    Matrix.transpose_apply, Matrix.map_apply, RingHom.id_apply, reshapeTranspose,
    reshapeC, natIdx3, grfcFreqsHanded, hf, hev, Matrix.diagonal_apply_eq]
  rw [vaspToTHz]
  norm_num

/-- The commensurate dynamical matrices of the one-cell tensor `w1Phi` are
`[[4]]`. -/
theorem w1_dynmat_eval :
    dynmat 1 (1 : ℚ) (fun _ => 1) w1Phi = fun _ => Matrix.of fun _ _ => (4 : ℚ) := by
  funext q
  ext a b
  simp only [dynmat, Matrix.of_apply, sum_zmod_one, w1Phi, one_pow]
  norm_num

/-- The commensurate dynamical matrices of the two-cell tensor `c1Phi` are
both `[[4]]`: the forward transform only sees the reference row of blocks
(4 on-site, 0 inter-cell), not the cell-1 on-site block 5. -/
theorem c1_dynmat_eval :
    dynmat 2 (-1 : ℚ) (fun _ => 1) c1Phi = fun _ => Matrix.of fun _ _ => (4 : ℚ) := by
  funext q
  ext a b
  simp only [dynmat, Matrix.of_apply, sum_zmod_two]
  have h00 : c1Phi 0 0 a b = 4 := by
    simp [c1Phi]
  have h01 : c1Phi 0 1 a b = 0 := by
    simp only [c1Phi, Matrix.of_apply]
    rw [if_neg (by decide : ¬(0 : ZMod 2) = 1)]
  rw [h00, h01]
  simp only [ZMod.val_zero, Nat.mul_zero, pow_zero]
  norm_num

/-- Running the reconstruction on the exact eigendata of `w1Phi` returns
`w1Phi`. -/
theorem w1_tensor_eval :
    grfcTensor 1 1 1 (RingHom.id ℚ) 1 (fun _ => 1) w1Freqs w1Ev = w1Phi := by
  rw [grfcTensor, modes_family_eval 1 w1Freqs w1Ev (fun _ _ => rfl) (fun _ _ _ _ => rfl)]
  funext l l'
  ext a b
  simp only [reconstruct, Matrix.of_apply, sum_zmod_one, w1Phi, inv_one, one_pow]
  norm_num

/-- Running the reconstruction on the exact eigendata of `c1Phi` returns the
translation-invariant tensor with on-site blocks 4 — not `c1Phi`. -/
theorem c1_tensor_eval :
    grfcTensor 2 1 1 (RingHom.id ℚ) (-1) (fun _ => 1) c1Freqs c1Ev =
      fun l l' => Matrix.of fun _ _ => if l = l' then (4 : ℚ) else 0 := by
  rw [grfcTensor, modes_family_eval 2 c1Freqs c1Ev (fun _ _ => rfl) (fun _ _ _ _ => rfl)]
  funext l l'
  ext a b
  simp only [reconstruct, Matrix.of_apply, sum_zmod_two]
  rcases zmod_two_cases (l' - l) with h | h
  · have hll : l = l' := (sub_eq_zero.mp h).symm
    rw [h, if_pos hll]
    simp only [ZMod.val_zero, Nat.zero_mul, pow_zero]
    norm_num
  · have hll : ¬ l = l' := by
      intro he
      rw [he, sub_self] at h
      exact (by decide : ¬(0 : ZMod 2) = 1) h
    rw [h, if_neg hll]
    have hv1 : (1 : ZMod 2).val = 1 := rfl
    have hv0 : (0 : ZMod 2).val = 0 := rfl
    rw [hv1]
    simp only [hv0, Nat.one_mul, Nat.mul_zero, Nat.mul_one, pow_zero, pow_one]
    norm_num

/-- C5: For every call to `get_force_constants_from_file` or
`get_force_sets_from_file` with no supercell argument supplied, the returned
container's stored supercell equals the 3×3 identity matrix and a warning
message is printed; when a supercell argument is supplied, the stored supercell
equals that argument and no warning is printed. -/
theorem C5_supercell_default {T Fs : Type} (parsedFC : T) (parsedFS : Fs) (sc : SC) :
    (get_force_constants_from_file parsedFC none).1.supercell = some np_identity3 ∧
    (get_force_constants_from_file parsedFC none).2 = [noSupercellWarning] ∧
    (get_force_constants_from_file parsedFC (some sc)).1.supercell = some sc ∧
    (get_force_constants_from_file parsedFC (some sc)).2 = [] ∧
    (get_force_sets_from_file parsedFS none).1.supercell = some np_identity3 ∧
    (get_force_sets_from_file parsedFS none).2 = [noSupercellWarning] ∧
    (get_force_sets_from_file parsedFS (some sc)).1.supercell = some sc ∧
    (get_force_sets_from_file parsedFS (some sc)).2 = [] := by
  refine ⟨rfl, rfl, rfl, rfl, rfl, rfl, rfl, rfl⟩

/-- C8: For every call to `get_phonon` with `setup_forces` enabled on a
structure that has neither force constants nor force sets available, the
function prints a human-readable message and terminates the process
immediately; it never returns a phonon object. -/
theorem C8_missing_forces_terminates {T Fs : Type} (produce : Fs → T)
    (structure' : StructureObj T Fs) (NAC : Bool) (custom_supercell : Option SC)
    (hfc : structure'.force_constants = none) (hfs : structure'.force_sets = none) :
    get_phonon produce structure' NAC true custom_supercell =
      .exited ((if NAC then [nacWarning] else []) ++ [noForcesMessage]) := by
  simp only [get_phonon, hfc, hfs, if_true]

/-- Witness for C8 at a concrete structure with no dynamical data. -/
theorem C8_missing_forces_terminates_witness :
    get_phonon (fun _ : Unit => ()) emptyStructure false true none =
      .exited [noForcesMessage] := by
  have h := C8_missing_forces_terminates (fun _ : Unit => ()) emptyStructure false none rfl rfl
  simpa using h

/-- C9: For every call to `obtain_phonopy_dos` with a requested projected-DOS
atom index that is out of range (non-negative but at or above the number of
partial-DOS entries), the function prints a message naming the index and
terminates the process immediately instead of returning a DOS array. -/
theorem C9_dos_index_terminates {T Fs : Type} (produce : Fs → T)
    (totalDos : DosData) (pdos : List ℚ × List (List ℚ))
    (structure' : StructureObj T Fs) (fc : ForceConstantsObj T)
    (projected_on_atom : ℤ) (h0 : 0 ≤ projected_on_atom)
    (hlen : (pdos.2.length : ℤ) ≤ projected_on_atom) :
    obtain_phonopy_dos produce totalDos pdos structure' (some fc) projected_on_atom =
      .exited ["No atom type " ++ toString projected_on_atom] := by
  simp only [obtain_phonopy_dos, get_phonon, Bool.false_eq_true, if_false,
    if_neg (not_lt.mpr h0), if_pos hlen, List.nil_append]

/-- Witness for C9 at index 0 with an empty partial-DOS table. -/
theorem C9_dos_index_terminates_witness :
    obtain_phonopy_dos (fun _ : Unit => ()) ([], []) ([], [])
      emptyStructure (some ⟨(), none⟩) 0 = .exited ["No atom type 0"] := by
  have h := C9_dos_index_terminates (fun _ : Unit => ()) ([], []) ([], [])
    emptyStructure ⟨(), none⟩ 0 (by decide) (by decide)
  rw [h]
  rfl

/-- C10: Every q-point returned by `get_equivalent_q_points_by_symmetry` has
all fractional components non-negative (symmetry images with any negative
component are discarded), and the returned rows are deduplicated, so no
q-point appears twice. -/
theorem C10_qpoints_nonneg_nodup (q_point : Fin 3 → ℚ)
    (operations : List (Matrix (Fin 3) (Fin 3) ℚ))
    (primitive primitive_inv : Matrix (Fin 3) (Fin 3) ℚ) :
    (∀ v ∈ get_equivalent_q_points_by_symmetry q_point operations primitive primitive_inv,
      ∀ i, 0 ≤ v i) ∧
    (get_equivalent_q_points_by_symmetry q_point operations primitive primitive_inv).Nodup := by
  constructor
  · intro v hv
    simp only [get_equivalent_q_points_by_symmetry, List.mem_dedup,
      List.mem_filterMap] at hv
    obtain ⟨op, _, heq⟩ := hv
    by_cases h : ∀ i, 0 ≤ Matrix.vecMul q_point
        (primitive_inv * op.transpose * primitive) i
    · rw [if_pos h] at heq
      cases heq
      exact h
    · rw [if_neg h] at heq
      cases heq
  · exact List.nodup_dedup _

/-- Witness for C10: with the identity symmetry operation and identity
primitive matrix, the input q-point survives the filter and the theorem yields
its component-wise non-negativity. -/
theorem C10_qpoints_nonneg_nodup_witness :
    (fun _ : Fin 3 => (1 : ℚ) / 2) ∈
      get_equivalent_q_points_by_symmetry (fun _ => 1 / 2) [1] 1 1 ∧
    ∀ i, 0 ≤ (fun _ : Fin 3 => (1 : ℚ) / 2) i := by
  have hmem : (fun _ : Fin 3 => (1 : ℚ) / 2) ∈
      get_equivalent_q_points_by_symmetry (fun _ => 1 / 2) [1] 1 1 := by
    simp only [get_equivalent_q_points_by_symmetry, List.mem_dedup, List.mem_filterMap]
    refine ⟨1, List.mem_singleton_self 1, ?_⟩
    rw [Matrix.transpose_one, mul_one, one_mul, Matrix.vecMul_one, if_pos]
    intro i
    norm_num
  exact ⟨hmem, fun i =>
    (C10_qpoints_nonneg_nodup (fun _ => 1 / 2) [1] 1 1).1 _ hmem i⟩

/-- C1 (amended): for every translation-invariant force-constant tensor,
running `get_renormalized_force_constants` on the exact harmonic frequencies
and eigenvectors derived from that tensor (inputs whose unit-converted,
reshaped eigendata reassemble its commensurate dynamical matrices), with
`symmetrize = False`, returns a `ForceConstants` instance holding exactly the
original tensor (in exact arithmetic, hence within any relative numerical
tolerance) and the given supercell. -/
theorem C1_roundtrip_translation_invariant {F : Type} [Field F] (N : ℕ) [NeZero N]
    (D P : ℕ) (conj : F →+* F) (ζ : F) (w : Fin (D * P) → F)
    (symPJ : FCTensor F N (D * P) → FCTensor F N (D * P))
    (freqs : ZMod N → Fin (D * P) → F)
    (ev : ZMod N → Fin (D * P) → Fin P → Fin D → F)
    (fc_supercell : SC) (σ0 : List (ForceConstantsObj (FCTensor F N (D * P))))
    (Φ : FCTensor F N (D * P))
    (hΦ : TranslationInvariant Φ) (hζ : IsPrimitiveRoot ζ N)
    (hw : ∀ a, w a ≠ 0) (hN : (N : F) ≠ 0)
    (hderive : dynmat N ζ w Φ = fun q =>
      dynmatFromModes conj (grfcFreqsHanded freqs q) (reshapeTranspose D P (ev q))) :
    grfcResultObj N D P conj ζ w symPJ freqs ev fc_supercell false σ0 =
      some ⟨Φ, some fc_supercell⟩ := by
  have htensor : grfcTensor N D P conj ζ w freqs ev = Φ := by
    rw [grfcTensor, ← hderive]
    exact reconstruct_dynmat N ζ w Φ hΦ hζ hw hN
  simp only [grfcResultObj, get_renormalized_force_constants, htensor,
    Bool.false_eq_true, if_false]
  exact getElem?_append_singleton σ0 _

/-- Witness for C1 (amended) on a one-cell, one-band tensor with block 4 and
its exact eigendata. -/
theorem C1_roundtrip_translation_invariant_witness :
    grfcResultObj 1 1 1 (RingHom.id ℚ) 1 (fun _ => 1) id w1Freqs w1Ev 1 false [] =
      some ⟨w1Phi, some 1⟩ := by
  refine C1_roundtrip_translation_invariant 1 1 1 (RingHom.id ℚ) 1 (fun _ => 1) id
    w1Freqs w1Ev 1 [] w1Phi ?_ ?_ ?_ ?_ ?_
  · intro t l l'
    rfl
  · exact ⟨one_pow 1, fun l _ => one_dvd l⟩
  · intro a
    norm_num
  · norm_num
  · exact w1_dynmat_eval.trans
      (modes_family_eval 1 w1Freqs w1Ev (fun _ _ => rfl) (fun _ _ _ _ => rfl)).symm

/-- C1 counterexample: the claim fails for a force-constant tensor that is not
translation invariant.  The two-cell tensor `c1Phi` has on-site blocks 4 and
5; its commensurate dynamical matrices are both `[[4]]`, so `c1Freqs`/`c1Ev`
are exact harmonic eigendata derived from it (second conjunct), yet the tensor
returned by `get_renormalized_force_constants` with `symmetrize = False` has
4 in the cell-1 on-site block where the original has 5 — off by 20%, far
outside the 1e-6 relative tolerance. -/
theorem C1_counterexample :
    IsPrimitiveRoot (-1 : ℚ) 2 ∧
    dynmat 2 (-1 : ℚ) (fun _ => 1) c1Phi = (fun q =>
      dynmatFromModes (RingHom.id ℚ) (grfcFreqsHanded c1Freqs q)
        (reshapeTranspose 1 1 (c1Ev q))) ∧
    (grfcResultObj 2 1 1 (RingHom.id ℚ) (-1) (fun _ => 1) id c1Freqs c1Ev 1
        false []).map (fun o => o.array 1 1 ⟨0, Nat.one_pos⟩ ⟨0, Nat.one_pos⟩) =
      some 4 ∧
    c1Phi 1 1 ⟨0, Nat.one_pos⟩ ⟨0, Nat.one_pos⟩ = 5 ∧
    ¬ relClose (1 / 1000000) 4 5 := by
  refine ⟨⟨by norm_num, ?_⟩, ?_, ?_, ?_, ?_⟩
  · intro l hl
    rcases Nat.even_or_odd l with he | ho
    · obtain ⟨r, hr⟩ := he
      exact ⟨r, by omega⟩
    · rw [ho.neg_one_pow] at hl
      norm_num at hl
  · exact c1_dynmat_eval.trans
      (modes_family_eval 2 c1Freqs c1Ev (fun _ _ => rfl) (fun _ _ _ _ => rfl)).symm
  · rw [grfcResultObj, grfc_run_eq]
    simp [c1_tensor_eval]
  · decide
  · intro h
    rw [relClose, show |(4 : ℚ) - 5| = 1 by norm_num [abs_of_nonpos],
      show |(5 : ℚ)| = 5 from abs_of_nonneg (by norm_num)] at h
    norm_num at h

/-- C2: in `get_renormalized_force_constants`, the eigenvector matrix handed
to the reconstruction context for each q-point is the input bundle reshaped in
row-major order into a `(D·P, D·P)` matrix and then transposed; equivalently,
its entry at combined band row `(j, k)` and mode column `i` is the bundle
entry for mode `i`, atom `j`, dimension `k`. -/
theorem C2_eigenvector_reshape {F : Type} (D P : ℕ)
    (ev : Fin (D * P) → Fin P → Fin D → F) (i : Fin (D * P)) (j : Fin P) (k : Fin D) :
    reshapeTranspose D P ev = (reshapeC D P ev).transpose ∧
    reshapeTranspose D P ev (pdIdx j k) i = ev i j k := by
  refine ⟨rfl, ?_⟩
  have hD : 0 < D := lt_of_le_of_lt (Nat.zero_le _) k.isLt
  have hPD : 0 < P * D := Nat.mul_pos (lt_of_le_of_lt (Nat.zero_le _) j.isLt) hD
  have hlt : j.val * D + k.val < P * D := by
    have hk := k.isLt
    calc j.val * D + k.val < j.val * D + D := by omega
      _ = (j.val + 1) * D := by ring
      _ ≤ P * D := Nat.mul_le_mul_right D j.isLt
  show (reshapeC D P ev).transpose (pdIdx j k) i = ev i j k
  rw [Matrix.transpose_apply]
  simp only [reshapeC, Matrix.of_apply, natIdx3, pdIdx]
  congr 1
  · exact Fin.ext (idx_div D P i.val (j.val * D + k.val) hPD hlt)
  · refine Fin.ext ?_
    show (i.val * (D * P) + (j.val * D + k.val)) % (P * D) / D = j.val
    rw [idx_mod D P i.val (j.val * D + k.val) hlt,
      idx_div2 D j.val k.val hD k.isLt]
  · refine Fin.ext ?_
    show (i.val * (D * P) + (j.val * D + k.val)) % (P * D) % D = k.val
    rw [idx_mod D P i.val (j.val * D + k.val) hlt, idx_mod2 D j.val k.val k.isLt]

/-- C3: in `get_renormalized_force_constants`, every input frequency is
converted to the context's internal unit convention by dividing it by the
single fixed constant `VaspToTHz` and by nothing else — the conversion is
exact: multiplying back by the constant recovers the input frequency. -/
theorem C3_frequency_conversion {N m : ℕ}
    (renormalized_frequencies : ZMod N → Fin m → ℚ) (q : ZMod N) (i : Fin m) :
    grfcFreqsHanded renormalized_frequencies q i =
      renormalized_frequencies q i / vaspToTHz ℚ ∧
    grfcFreqsHanded renormalized_frequencies q i * vaspToTHz ℚ =
      renormalized_frequencies q i := by
  constructor
  · rfl
  · rw [grfcFreqsHanded, div_mul_cancel₀]
    rw [vaspToTHz]
    norm_num

/-- C4: for every input, `get_renormalized_force_constants` returns a
`ForceConstants` instance whose stored supercell field is exactly the
`fc_supercell` argument it was called with, and whose stored array is the
tensor produced by the reconstruction — symmetrized when `symmetrize` is
set. -/
theorem C4_packaging {F : Type} [Field F] (N : ℕ) [NeZero N] (D P : ℕ)
    (conj : F →+* F) (ζ : F) (w : Fin (D * P) → F)
    (symPJ : FCTensor F N (D * P) → FCTensor F N (D * P))
    (freqs : ZMod N → Fin (D * P) → F)
    (ev : ZMod N → Fin (D * P) → Fin P → Fin D → F)
    (fc_supercell : SC) (symmetrize : Bool)
    (σ0 : List (ForceConstantsObj (FCTensor F N (D * P)))) :
    grfcResultObj N D P conj ζ w symPJ freqs ev fc_supercell symmetrize σ0 =
      some ⟨(if symmetrize then symPJ (grfcTensor N D P conj ζ w freqs ev)
             else grfcTensor N D P conj ζ w freqs ev), some fc_supercell⟩ := by
  cases symmetrize with
  | false =>
    simp only [grfcResultObj, get_renormalized_force_constants,
      Bool.false_eq_true, if_false]
    exact getElem?_append_singleton σ0 _
  | true =>
    simp only [grfcResultObj, get_renormalized_force_constants, if_true]
    rw [set_append_singleton]
    exact getElem?_append_singleton σ0 _

/-- Witness for C4 on concrete one-cell inputs with symmetrization requested
and a symmetrizer that zeroes the tensor: the returned instance stores the
symmetrized (zero) tensor and the supercell argument. -/
theorem C4_packaging_witness :
    grfcResultObj 1 1 1 (RingHom.id ℚ) 1 (fun _ => 1) (fun _ => fun _ _ => 0)
      w1Freqs w1Ev 1 true [] = some ⟨fun _ _ => 0, some 1⟩ := by
  have h := C4_packaging 1 1 1 (RingHom.id ℚ) 1 (fun _ => 1) (fun _ => fun _ _ => 0)
    w1Freqs w1Ev 1 true []
  simpa using h

/-- C6 (amended): in the QHA extraction pipeline the electronic energies and
the thermal-property series are reordered by `argsort(volumes)` — the
reordered volume list is a sorted permutation of the input volumes, and column
`i` of each transposed thermal matrix is the series of volume `sort_index[i]`
— but the force-constant tensor sequence handed to the quadratic volume
interpolator is NOT reordered: it stays in file order, and corresponds index
by index to the sorted volume array only when the supplied volumes are already
in non-decreasing order. -/
theorem C6_sorted_alignment {T : Type} (inp : QhaInputs T) (d : T) :
    List.Sorted (· ≤ ·) (qha_volumes_sorted inp) ∧
    List.Perm (qha_volumes_sorted inp) inp.volumes ∧
    (∀ t i, t < inp.temperatures.length → i < (qha_sort_index inp).length →
      ((qha_fe_passed inp).getD t []).getD i 0 =
        (inp.fe_phonon.getD ((qha_sort_index inp).getD i 0) []).getD t 0 ∧
      ((qha_entropy_passed inp).getD t []).getD i 0 =
        (inp.entropy.getD ((qha_sort_index inp).getD i 0) []).getD t 0 ∧
      ((qha_cv_passed inp).getD t []).getD i 0 =
        (inp.cv.getD ((qha_sort_index inp).getD i 0) []).getD t 0) ∧
    (List.Sorted (· ≤ ·) inp.volumes → inp.fc_arrays.length = inp.volumes.length →
      qha_fc_passed inp = reorderBy (qha_sort_index inp) inp.fc_arrays d) := by
  refine ⟨?_, ?_, ?_, ?_⟩
  · have h := argsortQ_sorted inp.volumes
    refine List.Pairwise.map _ ?_ h
    intro a b hab
    rcases hab with hab | ⟨hab, _⟩
    · exact le_of_lt hab
    · exact le_of_eq hab
  · have h : qha_volumes_sorted inp =
        (argsortQ inp.volumes).map (fun i => inp.volumes.getD i 0) := rfl
    rw [h]
    have hperm := (argsortQ_perm inp.volumes).map (fun i => inp.volumes.getD i 0)
    rw [map_getD_range inp.volumes 0] at hperm
    exact hperm
  · intro t i ht hi
    exact ⟨transposeSelect_getD _ _ _ t i ht hi,
      transposeSelect_getD _ _ _ t i ht hi,
      transposeSelect_getD _ _ _ t i ht hi⟩
  · intro hv hlen
    rw [qha_fc_passed, qha_sort_index, argsortQ_of_sorted hv, ← hlen]
    exact (map_getD_range inp.fc_arrays d).symm

/-- Witness for C6 (amended) on a concrete input with increasing volumes. -/
theorem C6_sorted_alignment_witness :
    List.Sorted (· ≤ ·) (qha_volumes_sorted qhaSortedInput) ∧
    qha_fc_passed qhaSortedInput =
      reorderBy (qha_sort_index qhaSortedInput) qhaSortedInput.fc_arrays 0 ∧
    ((qha_fe_passed qhaSortedInput).getD 0 []).getD 0 0 =
      (qhaSortedInput.fe_phonon.getD
        ((qha_sort_index qhaSortedInput).getD 0 0) []).getD 0 0 :=
  ⟨(C6_sorted_alignment qhaSortedInput 0).1,
   (C6_sorted_alignment qhaSortedInput 0).2.2.2 (by decide) (by decide),
   ((C6_sorted_alignment qhaSortedInput 0).2.2.1 0 0 (by decide) (by decide)).1⟩

/-- C6 counterexample: with the energy-volume file listing volumes in
decreasing order, the force-constant sequence handed to the volume interpolator
is not the `sort_index` reordering of the per-file tensors, so it does not
correspond index by index to the sorted volume array. -/
theorem C6_counterexample :
    qha_fc_passed qhaCounterexampleInput ≠
      reorderBy (qha_sort_index qhaCounterexampleInput)
        qhaCounterexampleInput.fc_arrays 0 := by
  decide

/-- C7 (amended): `get_renormalized_force_constants` allocates exactly one
`ForceConstants` instance, leaves every pre-existing instance untouched, and
returns that same instance whether or not symmetrization is requested; when
`symmetrize` is set, the symmetrization overwrites the stored tensor of that
already-constructed instance in place (via the external in-place symmetrizer)
instead of producing a new instance.  Only the supercell field of the class
has a post-hoc setter; the stored supercell is the `fc_supercell` argument
throughout. -/
theorem C7_instance_lifecycle {F : Type} [Field F] (N : ℕ) [NeZero N] (D P : ℕ)
    (conj : F →+* F) (ζ : F) (w : Fin (D * P) → F)
    (symPJ : FCTensor F N (D * P) → FCTensor F N (D * P))
    (freqs : ZMod N → Fin (D * P) → F)
    (ev : ZMod N → Fin (D * P) → Fin P → Fin D → F)
    (fc_supercell : SC) (symmetrize : Bool)
    (σ0 : List (ForceConstantsObj (FCTensor F N (D * P)))) :
    (get_renormalized_force_constants N D P conj ζ w symPJ freqs ev
        fc_supercell symmetrize σ0).1 =
      σ0 ++ [⟨(if symmetrize then symPJ (grfcTensor N D P conj ζ w freqs ev)
               else grfcTensor N D P conj ζ w freqs ev), some fc_supercell⟩] ∧
    (get_renormalized_force_constants N D P conj ζ w symPJ freqs ev
        fc_supercell symmetrize σ0).2 = σ0.length := by
  cases symmetrize with
  | false =>
    exact ⟨by simp [get_renormalized_force_constants], rfl⟩
  | true =>
    refine ⟨?_, rfl⟩
    simp only [get_renormalized_force_constants, if_true]
    rw [set_append_singleton]

/-- Witness for C7 (amended) on concrete one-cell inputs without
symmetrization: the final store holds exactly the one freshly constructed
instance and the call returns its index. -/
theorem C7_instance_lifecycle_witness :
    (get_renormalized_force_constants 1 1 1 (RingHom.id ℚ) 1 (fun _ => 1) id
        w1Freqs w1Ev 1 false []).1 =
      [⟨grfcTensor 1 1 1 (RingHom.id ℚ) 1 (fun _ => 1) w1Freqs w1Ev, some 1⟩] ∧
    (get_renormalized_force_constants 1 1 1 (RingHom.id ℚ) 1 (fun _ => 1) id
        w1Freqs w1Ev 1 false []).2 = 0 := by
  have h := C7_instance_lifecycle 1 1 1 (RingHom.id ℚ) 1 (fun _ => 1) id
    w1Freqs w1Ev 1 false []
  simpa using h

/-- C7 counterexample: with `symmetrize = True` and an external symmetrizer
that changes the tensor (here: zeroes it), the single instance in the final
store holds the post-symmetrization tensor — different from the reconstructed
tensor it was constructed with (whose cell block is 4, not 0) — and no second
instance was ever created: the stored tensor was mutated in place. -/
theorem C7_counterexample :
    (get_renormalized_force_constants 1 1 1 (RingHom.id ℚ) 1 (fun _ => 1)
        (fun _ => fun _ _ => 0) w1Freqs w1Ev 1 true []).1 =
      [⟨fun _ _ => 0, some 1⟩] ∧
    grfcTensor 1 1 1 (RingHom.id ℚ) 1 (fun _ => 1) w1Freqs w1Ev ≠
      (fun _ _ => 0) := by
  constructor
  · rw [grfc_run_eq]
    simp
  · rw [w1_tensor_eval]
    intro h
    have h2 := congrFun (congrFun (congrFun (congrFun h 0) 0)
      ⟨0, Nat.one_pos⟩) ⟨0, Nat.one_pos⟩
    simp only [w1Phi, Matrix.of_apply] at h2
    norm_num at h2

end DynaPhoPy
